import Mathlib

/-!
Verification of the two batch utilities of the poliops-scripts-linux
repository: the fiscal-year export pipeline (copy_fiscal_year_data.py)
and the inbound check-file transfer pipeline (get_check_files.py).

The Python functions are shallowly embedded as executable Lean
definitions.  CSV streams are lists of rows, Python dicts are
association lists with Python's insertion semantics, the remote host is
a function from a path to the text the remote commands produce, and the
two scripts' top-level control flow is embedded as trace-producing
functions.
-/

set_option maxHeartbeats 1000000
set_option maxRecDepth 8000

/-! ## Decimal rendering and parsing

The scripts render numbers with Python's str() and parse suffixes with
int().  Both are modelled on lists of characters. -/

/-- Fuel-driven decimal rendering of a natural number, least significant
digit peeled off last, as Python's str() renders a nonnegative int. -/
def natDigitsAux : Nat → Nat → List Char
  | 0, _ => []
  | fuel + 1, n =>
    if n < 10 then [Char.ofNat (48 + n)]
    else natDigitsAux fuel (n / 10) ++ [Char.ofNat (48 + n % 10)]

/-- Decimal rendering of a natural number (the digits of str(n)). -/
def natDigits (n : Nat) : List Char := natDigitsAux (n + 1) n

theorem natDigitsAux_fuel : ∀ f₁ f₂ n : Nat, n < f₁ → n < f₂ →
    natDigitsAux f₁ n = natDigitsAux f₂ n := by
  intro f₁
  induction f₁ with
  | zero => intro f₂ n h₁ _; omega
  | succ f ih =>
    intro f₂ n h₁ h₂
    cases f₂ with
    | zero => omega
    | succ g =>
      simp only [natDigitsAux]
      by_cases h10 : n < 10
      · simp [h10]
      · simp only [h10, if_false]
        have hdiv : n / 10 < n := Nat.div_lt_self (by omega) (by omega)
        rw [ih g (n / 10) (by omega) (by omega)]

/-- One-step unfolding of natDigits. -/
theorem natDigits_eq (n : Nat) :
    natDigits n = if n < 10 then [Char.ofNat (48 + n)]
                  else natDigits (n / 10) ++ [Char.ofNat (48 + n % 10)] := by
  by_cases h10 : n < 10
  · simp only [natDigits]
    conv_lhs => rw [natDigitsAux]
    simp [h10]
  · have hdiv : n / 10 < n := Nat.div_lt_self (by omega) (by omega)
    simp only [natDigits]
    conv_lhs => rw [natDigitsAux]
    simp only [h10, if_false]
    rw [natDigitsAux_fuel n (n / 10 + 1) (n / 10) (by omega) (by omega)]

theorem natDigits_ne_nil (n : Nat) : natDigits n ≠ [] := by
  rw [natDigits_eq]
  by_cases h10 : n < 10 <;> simp [h10]

theorem natDigits_one : natDigits 1 = ['1'] := by decide

theorem natDigits_ne_one (n : Nat) (h : 2 ≤ n) : natDigits n ≠ ['1'] := by
  rw [natDigits_eq]
  by_cases h10 : n < 10
  · simp only [h10, if_true]
    have : ∀ m : Nat, m < 10 → 2 ≤ m → [Char.ofNat (48 + m)] ≠ ['1'] := by decide
    exact this n h10 h
  · simp only [h10, if_false]
    intro hcontra
    have hne := natDigits_ne_nil (n / 10)
    cases hd : natDigits (n / 10) with
    | nil => exact hne hd
    | cons a l =>
      rw [hd] at hcontra
      have hlen := congrArg List.length hcontra
      simp [List.length_append] at hlen

theorem natDigits_digit (n : Nat) : ∀ c ∈ natDigits n, 48 ≤ c.toNat ∧ c.toNat ≤ 57 := by
  induction n using Nat.strong_induction_on with
  | _ n ih =>
    rw [natDigits_eq]
    by_cases h10 : n < 10
    · simp only [h10, if_true, List.mem_singleton]
      rintro c rfl
      have : ∀ m : Nat, m < 10 → 48 ≤ (Char.ofNat (48 + m)).toNat ∧
          (Char.ofNat (48 + m)).toNat ≤ 57 := by decide
      exact this n h10
    · simp only [h10, if_false, List.mem_append, List.mem_singleton]
      intro c hc
      rcases hc with hc | rfl
      · exact ih (n / 10) (Nat.div_lt_self (by omega) (by omega)) c hc
      · have : ∀ m : Nat, m < 10 → 48 ≤ (Char.ofNat (48 + m)).toNat ∧
            (Char.ofNat (48 + m)).toNat ≤ 57 := by decide
        exact this (n % 10) (Nat.mod_lt _ (by omega))

/-- Python int() on a list of decimal digit characters. -/
def parseIntChars (s : List Char) : Nat :=
  s.foldl (fun a c => a * 10 + (c.toNat - 48)) 0

theorem parseIntChars_append_digit (l : List Char) (c : Char) :
    parseIntChars (l ++ [c]) = parseIntChars l * 10 + (c.toNat - 48) := by
  simp [parseIntChars, List.foldl_append]

theorem parseIntChars_natDigits (n : Nat) : parseIntChars (natDigits n) = n := by
  induction n using Nat.strong_induction_on with
  | _ n ih =>
    rw [natDigits_eq]
    by_cases h10 : n < 10
    · simp only [h10, if_true]
      have : ∀ m : Nat, m < 10 →
          parseIntChars [Char.ofNat (48 + m)] = m := by decide
      exact this n h10
    · simp only [h10, if_false]
      rw [parseIntChars_append_digit,
        ih (n / 10) (Nat.div_lt_self (by omega) (by omega))]
      have : ∀ m : Nat, m < 10 → (Char.ofNat (48 + m)).toNat - 48 = m := by decide
      rw [this (n % 10) (Nat.mod_lt _ (by omega))]
      omega

/-! ## Pipeline B: the field-remapping CSV rewriter (get_check_files.py)

A CSV stream is a header (list of column names) plus data rows (lists of
field values).  csv.DictReader turns each data row into a Python dict
keyed by the header names; dicts are modelled as association lists with
Python's insertion semantics (overwrite in place if present, else
append).  csv.DictWriter writes, for each output fieldname, the value
found in the row dict. -/

/-- The fixed rename table FIELD_MAPPINGS of get_check_files.py. -/
def FIELD_MAPPINGS : List (String × String) :=
  [("FCC", "LM2"),
   ("Project Code", "PROJECTS"),
   ("State Code", "STATE"),
   ("Staffer ID", "EMPLOYEES"),
   ("CommitID", "COMMITID"),
   ("RequestID", "REQUESTID"),
   ("PP Code", "PROGRAM")]

/-- The output fieldname for one input column name: the mapped name when
the column is in FIELD_MAPPINGS, the name itself otherwise.  This is the
body of the fieldnames_out loop of rewrite_csv. -/
def mapFieldName (n : String) : String :=
  match FIELD_MAPPINGS.lookup n with
  | some m => m
  | none => n

/-- Python str.replace applied to a tab: value.replace of a tab by a
single space, as done in rewrite_csv for unmapped columns. -/
def replaceTab (s : String) : String :=
  String.mk (s.data.map (fun c => if c = '\t' then ' ' else c))

/-- The value rewrite_csv stores for one field: mapped columns pass the
value through unchanged, unmapped columns get tabs replaced by spaces. -/
def rewriteValue (n v : String) : String :=
  match FIELD_MAPPINGS.lookup n with
  | some _ => v
  | none => replaceTab v

/-- Python dict insertion: overwrite in place when the key is present,
append at the end otherwise. -/
def pyDictInsert (d : List (String × String)) (k v : String) :
    List (String × String) :=
  if (d.lookup k).isSome then d.map (fun p => if p.1 = k then (k, v) else p)
  else d ++ [(k, v)]

/-- The dict csv.DictReader builds for one data row: the header names
zipped with the row values, inserted left to right. -/
def pyDictOfZip (ks vs : List String) : List (String × String) :=
  (ks.zip vs).foldl (fun d p => pyDictInsert d p.1 p.2) []

/-- The row_out dict built by the per-row loop of rewrite_csv: for each
field of the row dict, mapped columns keep their value under the mapped
name, all other columns get tabs replaced by a single space. -/
def buildRowOut (row : List (String × String)) : List (String × String) :=
  row.foldl (fun acc p =>
    match FIELD_MAPPINGS.lookup p.1 with
    | some m => pyDictInsert acc m p.2
    | none => pyDictInsert acc p.1 (replaceTab p.2)) []

/-- csv.DictWriter.writerow: the value written for each output fieldname
is the row dict entry under that name (none if absent). -/
def writeRowOut (fns : List String) (rowOut : List (String × String)) :
    List (Option String) :=
  fns.map (fun k => rowOut.lookup k)

/-- The observable outcome of rewrite_csv: the header written, the data
rows written, and the returned row count.  The count mirrors the Python
return i + 1 where i is the enumerate loop variable: when the loop body
never ran, i is unbound and the return statement raises. -/
structure RewriteResult where
  headerOut : List String
  rowsOut : List (List (Option String))
  count : Except String Nat

/-- The rewrite_csv function of get_check_files.py on a parsed CSV
stream (header plus data rows). -/
def rewrite_csv (header : List String) (rows : List (List String)) :
    RewriteResult :=
  let fns_out := header.map mapFieldName
  let rowsOut := rows.map
    (fun r => writeRowOut fns_out (buildRowOut (pyDictOfZip header r)))
  let lastI : Option Nat := rows.foldl
    (fun acc _ => some (match acc with | none => 0 | some i => i + 1)) none
  { headerOut := fns_out
    rowsOut := rowsOut
    count := match lastI with
      | none => Except.error "UnboundLocalError: local variable i referenced before assignment"
      | some i => Except.ok (i + 1) }

/-! ### Association-list lemmas for the dict model -/

theorem lookup_cons (p : String × String) (t : List (String × String)) (k : String) :
    ((p :: t).lookup k) = if k = p.1 then some p.2 else t.lookup k := by
  cases p with
  | mk a b =>
    by_cases h : k = a
    · simp [List.lookup, h]
    · have hb : (k == a) = false := by simp [h]
      simp [List.lookup, hb, h]

theorem lookup_append (l₁ l₂ : List (String × String)) (k : String) :
    ((l₁ ++ l₂).lookup k) = (l₁.lookup k).or (l₂.lookup k) := by
  induction l₁ with
  | nil => simp [List.lookup]
  | cons p t ih =>
    rw [List.cons_append, lookup_cons, lookup_cons]
    by_cases h : k = p.1
    · simp [h, Option.or]
    · simp [h, ih]

theorem lookup_singleton (a b k : String) :
    (([(a, b)] : List (String × String)).lookup k)
      = if k = a then some b else none := by
  rw [lookup_cons]
  simp [List.lookup]

theorem pyDictInsert_fresh (d : List (String × String)) (k v : String)
    (h : d.lookup k = none) : pyDictInsert d k v = d ++ [(k, v)] := by
  simp [pyDictInsert, h]

/-- Folding fresh-keyed inserts over an association list appends the
transformed entries in order. -/
theorem foldl_pyDictInsert_fresh (f : String → String) (g : String × String → String) :
    ∀ (l : List (String × String)) (acc : List (String × String)),
      (∀ p ∈ l, acc.lookup (f p.1) = none) →
      (l.map (fun p => f p.1)).Nodup →
      l.foldl (fun a p => pyDictInsert a (f p.1) (g p)) acc
        = acc ++ l.map (fun p => (f p.1, g p)) := by
  intro l
  induction l with
  | nil => intro acc _ _; simp
  | cons p t ih =>
    intro acc hfresh hnd
    rw [List.foldl_cons, pyDictInsert_fresh acc (f p.1) (g p) (hfresh p (by simp))]
    rw [List.map_cons] at hnd
    have hnd1 := List.Nodup.of_cons hnd
    have hhead : f p.1 ∉ t.map (fun q => f q.1) := by
      intro hmem
      exact (List.nodup_cons.mp hnd).1 hmem
    rw [ih (acc ++ [(f p.1, g p)]) ?_ hnd1]
    · simp
    · intro q hq
      rw [lookup_append, hfresh q (by simp [hq]), lookup_singleton]
      have : f q.1 ≠ f p.1 := by
        intro he
        exact hhead (he ▸ List.mem_map_of_mem (fun r => f r.1) hq)
      simp [this, Option.or]

theorem pyDictOfZip_eq (ks vs : List String) (hnd : ks.Nodup)
    (hlen : vs.length = ks.length) : pyDictOfZip ks vs = ks.zip vs := by
  have h := foldl_pyDictInsert_fresh (fun x => x) Prod.snd (ks.zip vs) []
    (by intro p _; rfl)
    (by rw [show (ks.zip vs).map (fun p => p.1) = (ks.zip vs).map Prod.fst from rfl,
          List.map_fst_zip ks vs (by omega)]; exact hnd)
  simpa [pyDictOfZip] using h

theorem buildRowOut_eq (l : List (String × String))
    (hnd : (l.map (fun p => mapFieldName p.1)).Nodup) :
    buildRowOut l = l.map (fun p => (mapFieldName p.1, rewriteValue p.1 p.2)) := by
  have hstep : (fun (acc : List (String × String)) (p : String × String) =>
      match FIELD_MAPPINGS.lookup p.1 with
      | some m => pyDictInsert acc m p.2
      | none => pyDictInsert acc p.1 (replaceTab p.2))
      = fun acc p => pyDictInsert acc (mapFieldName p.1) (rewriteValue p.1 p.2) := by
    funext acc p
    cases h : FIELD_MAPPINGS.lookup p.1 <;> simp [mapFieldName, rewriteValue, h]
  rw [buildRowOut, hstep]
  have h := foldl_pyDictInsert_fresh mapFieldName (fun p => rewriteValue p.1 p.2) l []
    (by intro p _; rfl) hnd
  simpa using h

theorem lookup_get_of_nodup_keys (d : List (String × String))
    (hnd : (d.map Prod.fst).Nodup) :
    ∀ (i : Nat) (hi : i < d.length),
      d.lookup (d.get ⟨i, hi⟩).1 = some (d.get ⟨i, hi⟩).2 := by
  induction d with
  | nil => intro i hi; simp at hi
  | cons p t ih =>
    intro i hi
    cases i with
    | zero => simp [lookup_cons]
    | succ j =>
      have hj : j < t.length := by simpa using hi
      have hget : ((p :: t).get ⟨j + 1, hi⟩) = t.get ⟨j, hj⟩ := rfl
      rw [hget, lookup_cons]
      rw [List.map_cons] at hnd
      have hne : (t.get ⟨j, hj⟩).1 ≠ p.1 := by
        intro he
        exact (List.nodup_cons.mp hnd).1
          (he ▸ List.mem_map_of_mem Prod.fst (t.get_mem j hj))
      rw [if_neg hne]
      exact ih (List.Nodup.of_cons hnd) j hj

theorem lookup_mem (l : List (String × String)) (k v : String)
    (h : l.lookup k = some v) : (k, v) ∈ l := by
  induction l with
  | nil => simp [List.lookup] at h
  | cons p t ih =>
    rw [lookup_cons] at h
    by_cases hk : k = p.1
    · rw [if_pos hk] at h
      have : p = (k, v) := by
        cases p; cases h; cases hk; rfl
      simp [this]
    · rw [if_neg hk] at h
      exact List.mem_cons_of_mem _ (ih h)

theorem writeRowOut_keys (d : List (String × String))
    (hnd : (d.map Prod.fst).Nodup) :
    writeRowOut (d.map Prod.fst) d = d.map (fun q => some q.2) := by
  apply List.ext_getElem (by simp [writeRowOut])
  intro i h1 h2
  have hi : i < d.length := by simpa [writeRowOut] using h1
  simp only [writeRowOut, List.getElem_map]
  have h := lookup_get_of_nodup_keys d hnd i hi
  simpa [List.get_eq_getElem] using h

/-- The value written by rewrite_csv for each column position of a data
row: the header zipped with the row, each field transformed by
rewriteValue, in header order. -/
theorem writeRowOut_buildRowOut (header row : List String)
    (hnd : (header.map mapFieldName).Nodup) (hlen : row.length = header.length) :
    writeRowOut (header.map mapFieldName) (buildRowOut (pyDictOfZip header row))
      = (header.zip row).map (fun p => some (rewriteValue p.1 p.2)) := by
  have hndh : header.Nodup := List.Nodup.of_map mapFieldName hnd
  rw [pyDictOfZip_eq header row hndh hlen]
  have hmapfst : (header.zip row).map Prod.fst = header :=
    List.map_fst_zip header row (by omega)
  have hcomp : (header.zip row).map (fun p => mapFieldName p.1)
      = header.map mapFieldName := by
    rw [show (fun (p : String × String) => mapFieldName p.1)
        = mapFieldName ∘ Prod.fst from rfl, ← List.map_map, hmapfst]
  have hnd2 : ((header.zip row).map (fun p => mapFieldName p.1)).Nodup := by
    rw [hcomp]; exact hnd
  rw [buildRowOut_eq _ hnd2]
  have hdfst : ((header.zip row).map
      (fun p => (mapFieldName p.1, rewriteValue p.1 p.2))).map Prod.fst
      = header.map mapFieldName := by
    rw [List.map_map]
    exact hcomp
  have hgoal := writeRowOut_keys
    ((header.zip row).map (fun p => (mapFieldName p.1, rewriteValue p.1 p.2)))
    (by rw [hdfst]; exact hnd)
  rw [hdfst] at hgoal
  rw [hgoal, List.map_map]
  rfl

/-- C2: evaluation of rewrite_csv at a header-only stream.  The claim
(and the spec) say the function returns 0 without raising; the code
instead raises, because the return statement reads the enumerate loop
variable i, which is never bound when there are no data rows.  With at
least one data row the count is returned normally. -/
theorem rewrite_csv_empty_raises :
    (rewrite_csv ["Check Number", "Amount"] []).count
      = Except.error "UnboundLocalError: local variable i referenced before assignment"
    ∧ (rewrite_csv ["Check Number", "Amount"] [["77", "3.50"]]).count
      = Except.ok 1 :=
  ⟨rfl, rfl⟩

/-- C4: every header column name present in the rename table is
replaced, at the same position, by its mapped name in the output header
and as the key under which every data row's value is stored; a name
present in the table never appears in the output header; an input column
FCC yields LM2 at the corresponding position; names absent from the
table pass through unchanged. -/
theorem rewrite_csv_header_rename (header : List String) (rows : List (List String))
    (hnd : (header.map mapFieldName).Nodup)
    (hrows : ∀ r ∈ rows, r.length = header.length) :
    ((rewrite_csv header rows).headerOut.length = header.length)
    ∧ (∀ i n, header.get? i = some n →
        (rewrite_csv header rows).headerOut.get? i
          = some (match FIELD_MAPPINGS.lookup n with
                  | some m => m
                  | none => n))
    ∧ (∀ n, (FIELD_MAPPINGS.lookup n).isSome = true →
        n ∉ (rewrite_csv header rows).headerOut)
    ∧ (∀ i, header.get? i = some "FCC" →
        (rewrite_csv header rows).headerOut.get? i = some "LM2")
    ∧ (∀ r ∈ rows, ∀ i n v, header.get? i = some n → r.get? i = some v →
        (buildRowOut (pyDictOfZip header r)).lookup (mapFieldName n)
          = some (rewriteValue n v)) := by
  have hho : (rewrite_csv header rows).headerOut = header.map mapFieldName := rfl
  have hget : ∀ i n, header.get? i = some n →
      (rewrite_csv header rows).headerOut.get? i = some (mapFieldName n) := by
    intro i n hn
    rw [hho, List.get?_map, hn]
    rfl
  refine ⟨by rw [hho]; simp, ?_, ?_, ?_, ?_⟩
  · intro i n hn
    rw [hget i n hn]
    rfl
  · intro n hsome hmem
    rw [hho] at hmem
    obtain ⟨x, hx, hfx⟩ := List.mem_map.mp hmem
    have hvals : ∀ p ∈ FIELD_MAPPINGS, FIELD_MAPPINGS.lookup p.2 = none := by decide
    rw [show mapFieldName x = match FIELD_MAPPINGS.lookup x with
        | some m => m | none => x from rfl] at hfx
    cases hl : FIELD_MAPPINGS.lookup x with
    | none =>
      rw [hl] at hfx
      have hxn : x = n := hfx
      rw [hxn] at hl
      rw [hl] at hsome
      simp at hsome
    | some m =>
      rw [hl] at hfx
      have hmn : m = n := hfx
      have hmemmap : (x, m) ∈ FIELD_MAPPINGS := lookup_mem _ _ _ hl
      have hnone := hvals (x, m) hmemmap
      rw [show ((x, m) : String × String).2 = m from rfl] at hnone
      rw [hmn] at hnone
      rw [hnone] at hsome
      simp at hsome
  · intro i hn
    have := hget i "FCC" hn
    rw [this]
    rfl
  · intro r hr i n v hn hv
    have hlen : r.length = header.length := hrows r hr
    obtain ⟨hi, hgn⟩ := List.get?_eq_some.mp hn
    obtain ⟨hiv, hgv⟩ := List.get?_eq_some.mp hv
    have hgn2 : header[i] = n := by
      rw [← List.get_eq_getElem header ⟨i, hi⟩]; exact hgn
    have hgv2 : r[i] = v := by
      rw [← List.get_eq_getElem r ⟨i, hiv⟩]; exact hgv
    have hndh : header.Nodup := List.Nodup.of_map mapFieldName hnd
    rw [pyDictOfZip_eq header r hndh hlen]
    have hcomp : (header.zip r).map (fun p => mapFieldName p.1)
        = header.map mapFieldName := by
      rw [show (fun (p : String × String) => mapFieldName p.1)
          = mapFieldName ∘ Prod.fst from rfl, ← List.map_map,
        List.map_fst_zip header r (by omega)]
    have hnd2 : ((header.zip r).map (fun p => mapFieldName p.1)).Nodup := by
      rw [hcomp]; exact hnd
    rw [buildRowOut_eq _ hnd2]
    have hdfst : ((header.zip r).map
        (fun p => (mapFieldName p.1, rewriteValue p.1 p.2))).map Prod.fst
        = header.map mapFieldName := by
      rw [List.map_map]
      exact hcomp
    have hdlen : i < ((header.zip r).map
        (fun p => (mapFieldName p.1, rewriteValue p.1 p.2))).length := by
      simp only [List.length_map, List.length_zip]
      omega
    have hlk := lookup_get_of_nodup_keys _ (by rw [hdfst]; exact hnd) i hdlen
    rw [List.get_eq_getElem] at hlk
    have hdi : ((header.zip r).map
        (fun p => (mapFieldName p.1, rewriteValue p.1 p.2)))[i]
        = (mapFieldName n, rewriteValue n v) := by
      rw [List.getElem_map, List.getElem_zip, hgn2, hgv2]
    rw [hdi] at hlk
    exact hlk

/-- C4 witness at a concrete input containing both mapped and unmapped
columns. -/
theorem rewrite_csv_header_rename_witness :
    ((rewrite_csv ["FCC", "Notes"] [["A1", "B2"]]).headerOut.length = 2)
    ∧ (∀ i n, (["FCC", "Notes"] : List String).get? i = some n →
        (rewrite_csv ["FCC", "Notes"] [["A1", "B2"]]).headerOut.get? i
          = some (match FIELD_MAPPINGS.lookup n with
                  | some m => m
                  | none => n))
    ∧ (∀ n, (FIELD_MAPPINGS.lookup n).isSome = true →
        n ∉ (rewrite_csv ["FCC", "Notes"] [["A1", "B2"]]).headerOut)
    ∧ (∀ i, (["FCC", "Notes"] : List String).get? i = some "FCC" →
        (rewrite_csv ["FCC", "Notes"] [["A1", "B2"]]).headerOut.get? i = some "LM2")
    ∧ (∀ r ∈ [["A1", "B2"]], ∀ i n v,
        (["FCC", "Notes"] : List String).get? i = some n → r.get? i = some v →
        (buildRowOut (pyDictOfZip ["FCC", "Notes"] r)).lookup (mapFieldName n)
          = some (rewriteValue n v)) :=
  rewrite_csv_header_rename ["FCC", "Notes"] [["A1", "B2"]] (by decide) (by decide)

theorem replaceTab_eq_self (v : String) (h : '\t' ∉ v.data) : replaceTab v = v := by
  rw [replaceTab]
  have hmap : v.data.map (fun c => if c = '\t' then ' ' else c) = v.data := by
    have hcong : ∀ c ∈ v.data, (if c = '\t' then ' ' else c) = id c := by
      intro c hc
      have hne : c ≠ '\t' := fun he => h (he ▸ hc)
      simp [hne]
    rw [List.map_congr_left hcong, List.map_id]
  rw [hmap]

/-- C7: rewriting a CSV whose column names are all absent from the
rename table and whose values contain no tabs returns the header
unchanged and the data values unchanged, in order. -/
theorem rewrite_csv_roundtrip (header : List String) (rows : List (List String))
    (hnd : header.Nodup)
    (hunmapped : ∀ n ∈ header, FIELD_MAPPINGS.lookup n = none)
    (hnotab : ∀ r ∈ rows, ∀ v ∈ r, '\t' ∉ v.data)
    (hrows : ∀ r ∈ rows, r.length = header.length) :
    (rewrite_csv header rows).headerOut = header
    ∧ (rewrite_csv header rows).rowsOut = rows.map (fun r => r.map some) := by
  have hmapid : header.map mapFieldName = header := by
    have : ∀ n ∈ header, mapFieldName n = n := by
      intro n hn
      rw [mapFieldName, hunmapped n hn]
    calc header.map mapFieldName = header.map id := List.map_congr_left this
    _ = header := List.map_id header
  constructor
  · exact hmapid
  · have hndm : (header.map mapFieldName).Nodup := by rw [hmapid]; exact hnd
    show rows.map (fun r => writeRowOut (header.map mapFieldName)
        (buildRowOut (pyDictOfZip header r))) = rows.map (fun r => r.map some)
    apply List.map_congr_left
    intro r hr
    rw [writeRowOut_buildRowOut header r hndm (hrows r hr)]
    have hvals : ∀ p ∈ header.zip r, some (rewriteValue p.1 p.2) = some p.2 := by
      intro p hp
      obtain ⟨h1, h2⟩ := List.of_mem_zip hp
      rw [rewriteValue, hunmapped p.1 h1,
        replaceTab_eq_self p.2 (hnotab r hr p.2 h2)]
    calc (header.zip r).map (fun p => some (rewriteValue p.1 p.2))
        = (header.zip r).map (fun p => some p.2) := List.map_congr_left hvals
    _ = ((header.zip r).map Prod.snd).map some := by rw [List.map_map]; rfl
    _ = r.map some := by rw [List.map_snd_zip header r (by rw [hrows r hr])]

/-- C7 witness at a concrete unmapped, tab-free input. -/
theorem rewrite_csv_roundtrip_witness :
    (rewrite_csv ["Date", "Amount"] [["2014-01-02", "3.50"]]).headerOut
      = ["Date", "Amount"]
    ∧ (rewrite_csv ["Date", "Amount"] [["2014-01-02", "3.50"]]).rowsOut
      = [[some "2014-01-02", some "3.50"]] :=
  rewrite_csv_roundtrip ["Date", "Amount"] [["2014-01-02", "3.50"]]
    (by decide) (by decide) (by decide) (by decide)

/-- C3 (amended): for every data row, the output value of each column is
the input value with tabs replaced by single spaces when the column name
is absent from the rename table, and the unchanged input value (tabs
included) when the column name is present in the rename table. -/
theorem rewrite_csv_tab_scope (header : List String) (rows : List (List String))
    (hnd : (header.map mapFieldName).Nodup)
    (hrows : ∀ r ∈ rows, r.length = header.length) :
    ∀ j r, rows.get? j = some r →
      (rewrite_csv header rows).rowsOut.get? j
        = some ((header.zip r).map (fun p =>
            some (if (FIELD_MAPPINGS.lookup p.1).isSome then p.2
                  else String.mk (p.2.data.map
                    (fun c => if c = '\t' then ' ' else c))))) := by
  intro j r hj
  have hr : r ∈ rows := List.get?_mem hj
  have hrow : (rewrite_csv header rows).rowsOut.get? j
      = some (writeRowOut (header.map mapFieldName)
          (buildRowOut (pyDictOfZip header r))) := by
    show (rows.map (fun r => writeRowOut (header.map mapFieldName)
        (buildRowOut (pyDictOfZip header r)))).get? j = _
    rw [List.get?_map, hj]
    rfl
  rw [hrow, writeRowOut_buildRowOut header r hnd (hrows r hr)]
  congr 1
  apply List.map_congr_left
  intro p _
  cases hl : FIELD_MAPPINGS.lookup p.1 with
  | none => simp [rewriteValue, replaceTab, hl]
  | some m => simp [rewriteValue, hl]

/-- C3 witness: a row with one mapped column and one unmapped column,
both holding tabs; the unmapped value gets its tab replaced, the mapped
value keeps it. -/
theorem rewrite_csv_tab_scope_witness :
    (rewrite_csv ["FCC", "Notes"] [["keep\tme", "fix\tme"]]).rowsOut.get? 0
      = some [some "keep\tme", some "fix me"] :=
  rewrite_csv_tab_scope ["FCC", "Notes"] [["keep\tme", "fix\tme"]]
    (by decide) (by decide) 0 ["keep\tme", "fix\tme"] rfl

/-- C3 counterexample: the claim says every field value with a tab has
the tab replaced whether or not its column is in the rename table; for
the mapped column FCC the code passes the value through with the tab
intact, so the output value is not the tab-replaced one. -/
theorem rewrite_csv_tab_mapped_counterexample :
    (rewrite_csv ["FCC"] [["a\tb"]]).rowsOut = [[some "a\tb"]]
    ∧ '\t' ∈ ("a\tb" : String).data
    ∧ ("a\tb" : String) ≠ "a b" := by
  refine ⟨by decide, by decide, by decide⟩

/-! ## Pipeline B: the non-empty-file filter (get_check_files.py)

The remote host is modelled as a pair of functions giving, per path, the
stdout lines of ls and the first stdout line of wc -l.  The filter keeps
the specs whose wc output splits into exactly two whitespace-separated
tokens whose first token differs from the string 1; all other specs
reaching the wc phase are recorded as found but not copied. -/

/-- Python str.isspace characters relevant to str.split(): space, tab,
newline, carriage return, vertical tab, form feed. -/
def pyIsSpace (c : Char) : Bool :=
  c = ' ' || c = '\t' || c = '\n' || c = '\r'
    || c = Char.ofNat 11 || c = Char.ofNat 12

/-- Helper for Python str.split() with no argument: split on runs of
whitespace, producing no empty tokens.  cur holds the current token in
reverse. -/
def pySplitAux : List Char → List Char → List (List Char)
  | [], cur => if cur.isEmpty then [] else [cur.reverse]
  | c :: rest, cur =>
    if pyIsSpace c then
      if cur.isEmpty then pySplitAux rest []
      else cur.reverse :: pySplitAux rest []
    else pySplitAux rest (c :: cur)

/-- Python str.split() with no argument, on a list of characters. -/
def pySplit (s : List Char) : List (List Char) := pySplitAux s []

theorem pySplitAux_no_space (l : List Char) (hl : ∀ c ∈ l, pyIsSpace c = false) :
    ∀ (s cur : List Char), pySplitAux (l ++ s) cur = pySplitAux s (l.reverse ++ cur) := by
  induction l with
  | nil => intro s cur; simp
  | cons c t ih =>
    intro s cur
    have hc : pyIsSpace c = false := hl c (by simp)
    have ht : ∀ d ∈ t, pyIsSpace d = false := fun d hd => hl d (by simp [hd])
    rw [List.cons_append]
    show pySplitAux (c :: (t ++ s)) cur = _
    rw [show pySplitAux (c :: (t ++ s)) cur
        = if pyIsSpace c then
            (if cur.isEmpty then pySplitAux (t ++ s) []
             else cur.reverse :: pySplitAux (t ++ s) [])
          else pySplitAux (t ++ s) (c :: cur) from rfl]
    rw [hc]
    simp only [Bool.false_eq_true, if_false]
    rw [ih ht s (c :: cur)]
    simp [List.append_assoc]

theorem pySplitAux_nil_token (cur : List Char) (h : cur ≠ []) :
    pySplitAux [] cur = [cur.reverse] := by
  have : cur.isEmpty = false := by
    cases cur with
    | nil => exact absurd rfl h
    | cons a t => rfl
  simp [pySplitAux, this]

theorem pySplitAux_space_token (s cur : List Char) (h : cur ≠ []) :
    pySplitAux (' ' :: s) cur = cur.reverse :: pySplitAux s [] := by
  have hcur : cur.isEmpty = false := by
    cases cur with
    | nil => exact absurd rfl h
    | cons a t => rfl
  show (if pyIsSpace ' ' then
      (if cur.isEmpty then pySplitAux s [] else cur.reverse :: pySplitAux s [])
      else pySplitAux s (' ' :: cur)) = _
  rw [show pyIsSpace ' ' = true from rfl, hcur]
  simp

/-- str.split() of two non-space tokens around one space gives exactly
the two tokens. -/
theorem pySplit_two_tokens (t1 t2 : List Char)
    (h1 : t1 ≠ []) (h1s : ∀ c ∈ t1, pyIsSpace c = false)
    (h2 : t2 ≠ []) (h2s : ∀ c ∈ t2, pyIsSpace c = false) :
    pySplit (t1 ++ ' ' :: t2) = [t1, t2] := by
  rw [pySplit, pySplitAux_no_space t1 h1s (' ' :: t2) []]
  rw [List.append_nil]
  rw [pySplitAux_space_token t2 t1.reverse (by simp [h1])]
  rw [List.reverse_reverse]
  rw [show pySplitAux t2 [] = pySplitAux (t2 ++ []) [] from by rw [List.append_nil]]
  rw [pySplitAux_no_space t2 h2s [] []]
  rw [List.append_nil, pySplitAux_nil_token t2.reverse (by simp [h2])]
  rw [List.reverse_reverse]

theorem pyIsSpace_of_digit (c : Char) (h48 : 48 ≤ c.toNat) : pyIsSpace c = false := by
  have h1 : c ≠ ' ' := by rintro rfl; exact absurd h48 (by decide)
  have h2 : c ≠ '\t' := by rintro rfl; exact absurd h48 (by decide)
  have h3 : c ≠ '\n' := by rintro rfl; exact absurd h48 (by decide)
  have h4 : c ≠ '\r' := by rintro rfl; exact absurd h48 (by decide)
  have h5 : c ≠ Char.ofNat 11 := by rintro rfl; exact absurd h48 (by decide)
  have h6 : c ≠ Char.ofNat 12 := by rintro rfl; exact absurd h48 (by decide)
  simp [pyIsSpace, h1, h2, h3, h4, h5, h6]

/-- The four pathnames get_check_files.py carries per company file. -/
structure FileSpec where
  remote_path : String
  remote_path_old : String
  local_path : String
  share_path : String
deriving DecidableEq

/-- The observable behaviour of the remote host: the stdout lines of
ls for a path, and the first stdout line of wc -l for a path. -/
structure Remote where
  lsLines : String → List String
  wcFirstLine : String → String

/-- The temp list built by the first loop of available_non_empty_files:
each spec is appended once per line of ls output for its remote path. -/
def lsTemp (w : Remote) (prospective : List FileSpec) : List FileSpec :=
  prospective.foldl (fun acc spec =>
    acc ++ (w.lsLines spec.remote_path).map (fun _ => spec)) []

/-- The second loop of available_non_empty_files: split the wc output
line; keep the spec when there are exactly two tokens and the first is
not the string 1, otherwise record the path as found but not copied.
Returns (retval, recorded paths). -/
def available_non_empty_files (w : Remote) (prospective : List FileSpec) :
    List FileSpec × List String :=
  (lsTemp w prospective).foldl (fun acc spec =>
    match pySplit (w.wcFirstLine spec.remote_path).data with
    | [a, _] =>
      if a ≠ ['1'] then (acc.1 ++ [spec], acc.2)
      else (acc.1, acc.2 ++ [spec.remote_path])
    | _ => (acc.1, acc.2 ++ [spec.remote_path])) ([], [])

/-- The inclusion test of available_non_empty_files for one spec. -/
def includeTest (w : Remote) (spec : FileSpec) : Bool :=
  match pySplit (w.wcFirstLine spec.remote_path).data with
  | [a, _] => if a ≠ ['1'] then true else false
  | _ => false

theorem available_step_eq (w : Remote) (spec : FileSpec)
    (acc : List FileSpec × List String) :
    (match pySplit (w.wcFirstLine spec.remote_path).data with
     | [a, _] =>
       if a ≠ ['1'] then (acc.1 ++ [spec], acc.2)
       else (acc.1, acc.2 ++ [spec.remote_path])
     | _ => (acc.1, acc.2 ++ [spec.remote_path]))
    = if includeTest w spec then (acc.1 ++ [spec], acc.2)
      else (acc.1, acc.2 ++ [spec.remote_path]) := by
  rw [includeTest]
  cases hp : pySplit (w.wcFirstLine spec.remote_path).data with
  | nil => simp
  | cons a rest =>
    cases rest with
    | nil => simp
    | cons b rest2 =>
      cases rest2 with
      | nil => by_cases h : a = ['1'] <;> simp [h]
      | cons c rest3 => simp

theorem available_foldl_char (w : Remote) :
    ∀ (l : List FileSpec) (acc : List FileSpec × List String),
      l.foldl (fun acc spec =>
        match pySplit (w.wcFirstLine spec.remote_path).data with
        | [a, _] =>
          if a ≠ ['1'] then (acc.1 ++ [spec], acc.2)
          else (acc.1, acc.2 ++ [spec.remote_path])
        | _ => (acc.1, acc.2 ++ [spec.remote_path])) acc
      = (acc.1 ++ l.filter (includeTest w),
         acc.2 ++ (l.filter (fun s => ! includeTest w s)).map
           (fun s => s.remote_path)) := by
  intro l
  induction l with
  | nil => intro acc; simp
  | cons spec t ih =>
    intro acc
    rw [List.foldl_cons, available_step_eq]
    by_cases h : includeTest w spec
    · rw [if_pos h, ih]
      simp [List.filter_cons, h]
    · rw [if_neg h, ih]
      have hb : includeTest w spec = false := by
        cases hx : includeTest w spec
        · rfl
        · exact absurd hx h
      simp [List.filter_cons, hb]

/-- The outcome of available_non_empty_files: the specs passing the
inclusion test, and the remote paths of the specs failing it, both drawn
from the temp list in order. -/
theorem available_non_empty_files_eq (w : Remote) (prospective : List FileSpec) :
    available_non_empty_files w prospective
      = ((lsTemp w prospective).filter (includeTest w),
         ((lsTemp w prospective).filter (fun s => ! includeTest w s)).map
           (fun s => s.remote_path)) := by
  rw [available_non_empty_files, available_foldl_char w (lsTemp w prospective) ([], [])]
  rfl

theorem lsTemp_mono (w : Remote) :
    ∀ (l : List FileSpec) (acc : List FileSpec) (spec : FileSpec),
      spec ∈ acc →
      spec ∈ l.foldl (fun a s =>
        a ++ (w.lsLines s.remote_path).map (fun _ => s)) acc := by
  intro l
  induction l with
  | nil => intro acc spec h; simpa using h
  | cons s t ih =>
    intro acc spec h
    rw [List.foldl_cons]
    exact ih _ spec (List.mem_append_left _ h)

theorem mem_lsTemp (w : Remote) (prospective : List FileSpec) (spec : FileSpec)
    (hmem : spec ∈ prospective) (hls : w.lsLines spec.remote_path ≠ []) :
    spec ∈ lsTemp w prospective := by
  rw [lsTemp]
  induction prospective with
  | nil => simp at hmem
  | cons s t ih =>
    rw [List.foldl_cons]
    rcases List.mem_cons.mp hmem with heq | hmemt
    · subst heq
      apply lsTemp_mono
      apply List.mem_append_right
      cases hl : w.lsLines spec.remote_path with
      | nil => exact absurd hl hls
      | cons a r => simp
    · -- spec occurs later in the prospective list
      have := ih hmemt
      -- redo the fold with the bigger accumulator
      clear ih
      -- generalize over the accumulator
      revert hmemt
      generalize ([] ++ (w.lsLines s.remote_path).map (fun _ => s)) = acc0
      intro hmemt
      -- fold over t starting from acc0
      clear this hmem
      induction t generalizing acc0 with
      | nil => simp at hmemt
      | cons u v ihv =>
        rw [List.foldl_cons]
        rcases List.mem_cons.mp hmemt with heq | hmemv
        · subst heq
          apply lsTemp_mono
          apply List.mem_append_right
          cases hl : w.lsLines spec.remote_path with
          | nil => exact absurd hl hls
          | cons a r => simp
        · exact ihv _ hmemv

/-- C5: a candidate whose wc -l output reports line count exactly 1 is
classified as empty (excluded from the copy set and recorded as found
but not copied); a candidate reporting 2 or more lines is included. -/
theorem available_line_count_classification (w : Remote) (prospective : List FileSpec)
    (spec : FileSpec) (n : Nat)
    (hmem : spec ∈ prospective)
    (hls : w.lsLines spec.remote_path = [spec.remote_path])
    (hwc : (w.wcFirstLine spec.remote_path).data
      = natDigits n ++ ' ' :: spec.remote_path.data)
    (hpne : spec.remote_path.data ≠ [])
    (hpns : ∀ c ∈ spec.remote_path.data, pyIsSpace c = false) :
    (n = 1 → spec ∉ (available_non_empty_files w prospective).1
           ∧ spec.remote_path ∈ (available_non_empty_files w prospective).2)
    ∧ (2 ≤ n → spec ∈ (available_non_empty_files w prospective).1) := by
  have hdg : ∀ c ∈ natDigits n, pyIsSpace c = false := fun c hc =>
    pyIsSpace_of_digit c (natDigits_digit n c hc).1
  have hparts : pySplit (w.wcFirstLine spec.remote_path).data
      = [natDigits n, spec.remote_path.data] := by
    rw [hwc]
    exact pySplit_two_tokens _ _ (natDigits_ne_nil n) hdg hpne hpns
  have hinc : includeTest w spec
      = (if natDigits n ≠ ['1'] then true else false) := by
    rw [includeTest, hparts]
  have hintemp : spec ∈ lsTemp w prospective :=
    mem_lsTemp w prospective spec hmem (by rw [hls]; simp)
  rw [available_non_empty_files_eq]
  constructor
  · intro h1
    subst h1
    have hfalse : includeTest w spec = false := by
      rw [hinc, natDigits_one]
      simp
    constructor
    · intro hmemf
      have hmf := (List.mem_filter.mp hmemf).2
      rw [hfalse] at hmf
      exact Bool.false_ne_true hmf
    · show spec.remote_path ∈ ((lsTemp w prospective).filter
        (fun s => ! includeTest w s)).map (fun s => s.remote_path)
      have hmemf : spec ∈ (lsTemp w prospective).filter
          (fun s => ! includeTest w s) :=
        List.mem_filter.mpr ⟨hintemp, by simp [hfalse]⟩
      exact List.mem_map_of_mem (fun s => s.remote_path) hmemf
  · intro h2
    have htrue : includeTest w spec = true := by
      rw [hinc, if_pos (natDigits_ne_one n h2)]
    exact List.mem_filter.mpr ⟨hintemp, htrue⟩

/-- A concrete spec for the witnesses. -/
def sampleSpec : FileSpec :=
  { remote_path := "cr-afl.csv", remote_path_old := "old/cr-afl.csv",
    local_path := "tmp/20240101-0900.txt", share_path := "share/20240101-0900.txt" }

/-- A remote on which cr-afl.csv exists and wc -l reports one line. -/
def sampleRemoteHeaderOnly : Remote :=
  { lsLines := fun _ => ["cr-afl.csv"], wcFirstLine := fun _ => "1 cr-afl.csv" }

/-- C5 witness: on the one-line remote the spec is excluded and its path
recorded. -/
theorem available_line_count_classification_witness :
    (1 = 1 → sampleSpec ∉
        (available_non_empty_files sampleRemoteHeaderOnly [sampleSpec]).1
      ∧ sampleSpec.remote_path ∈
        (available_non_empty_files sampleRemoteHeaderOnly [sampleSpec]).2)
    ∧ (2 ≤ 1 → sampleSpec ∈
        (available_non_empty_files sampleRemoteHeaderOnly [sampleSpec]).1) :=
  available_line_count_classification sampleRemoteHeaderOnly [sampleSpec] sampleSpec 1
    (by simp) rfl (by decide) (by decide) (by decide)

/-- C10: a candidate whose wc -l output reports line count 0 passes the
inclusion test (the code only compares the first token against the
string 1), and a candidate whose wc output does not split into exactly
two tokens (for example a path containing a space) is recorded as found
but not copied. -/
theorem available_zero_count_or_malformed (w : Remote) (prospective : List FileSpec)
    (spec : FileSpec)
    (hmem : spec ∈ prospective)
    (hls : w.lsLines spec.remote_path = [spec.remote_path]) :
    ((w.wcFirstLine spec.remote_path).data
        = natDigits 0 ++ ' ' :: spec.remote_path.data →
      spec.remote_path.data ≠ [] →
      (∀ c ∈ spec.remote_path.data, pyIsSpace c = false) →
      spec ∈ (available_non_empty_files w prospective).1)
    ∧ ((pySplit (w.wcFirstLine spec.remote_path).data).length ≠ 2 →
      spec.remote_path ∈ (available_non_empty_files w prospective).2) := by
  have hintemp : spec ∈ lsTemp w prospective :=
    mem_lsTemp w prospective spec hmem (by rw [hls]; simp)
  rw [available_non_empty_files_eq]
  constructor
  · intro hwc hpne hpns
    have hdg : ∀ c ∈ natDigits 0, pyIsSpace c = false := fun c hc =>
      pyIsSpace_of_digit c (natDigits_digit 0 c hc).1
    have hparts : pySplit (w.wcFirstLine spec.remote_path).data
        = [natDigits 0, spec.remote_path.data] := by
      rw [hwc]
      exact pySplit_two_tokens _ _ (natDigits_ne_nil 0) hdg hpne hpns
    have htrue : includeTest w spec = true := by
      rw [includeTest, hparts]
      exact if_pos (by decide : natDigits 0 ≠ ['1'])
    exact List.mem_filter.mpr ⟨hintemp, htrue⟩
  · intro hlen
    have hfalse : includeTest w spec = false := by
      rw [includeTest]
      cases hp : pySplit (w.wcFirstLine spec.remote_path).data with
      | nil => rfl
      | cons a rest =>
        cases rest with
        | nil => rfl
        | cons b rest2 =>
          cases rest2 with
          | nil => exact absurd (by rw [hp]; rfl) hlen
          | cons c rest3 => rfl
    show spec.remote_path ∈ ((lsTemp w prospective).filter
      (fun s => ! includeTest w s)).map (fun s => s.remote_path)
    have hmemf : spec ∈ (lsTemp w prospective).filter
        (fun s => ! includeTest w s) :=
      List.mem_filter.mpr ⟨hintemp, by simp [hfalse]⟩
    exact List.mem_map_of_mem (fun s => s.remote_path) hmemf

/-- A remote on which cr-afl.csv exists and wc -l reports zero lines. -/
def sampleRemoteZeroLines : Remote :=
  { lsLines := fun _ => ["cr-afl.csv"], wcFirstLine := fun _ => "0 cr-afl.csv" }

/-- A spec whose remote path contains a space, plus a remote on which it
exists with five lines; the wc output then has three tokens. -/
def sampleSpecSpacePath : FileSpec :=
  { remote_path := "my file.csv", remote_path_old := "old/my file.csv",
    local_path := "tmp/b.txt", share_path := "share/b.txt" }

def sampleRemoteSpacePath : Remote :=
  { lsLines := fun _ => ["my file.csv"], wcFirstLine := fun _ => "5 my file.csv" }

/-- C10 witness: the zero-line file is included in the copy set, and the
spacey-path file with five lines is recorded as found but not copied. -/
theorem available_zero_count_or_malformed_witness :
    sampleSpec ∈
      (available_non_empty_files sampleRemoteZeroLines [sampleSpec]).1
    ∧ sampleSpecSpacePath.remote_path ∈
      (available_non_empty_files sampleRemoteSpacePath [sampleSpecSpacePath]).2 :=
  ⟨(available_zero_count_or_malformed sampleRemoteZeroLines [sampleSpec] sampleSpec
      (by simp) rfl).1 (by decide) (by decide) (by decide),
   (available_zero_count_or_malformed sampleRemoteSpacePath [sampleSpecSpacePath]
      sampleSpecSpacePath (by simp) rfl).2 (by decide)⟩

/-! ## Pipeline B: the remote command trace of one run (get_check_files.py)

The main flow of copy_check_files issues remote commands in a fixed
order: ls per prospective file, wc per temp entry, cat per wanted file
(only when at least one file is wanted), then mv per prospective file,
unconditionally. -/

/-- One remote shell command issued over the SSH connection. -/
inductive RemoteCmd where
  | ls : String → RemoteCmd
  | wc : String → RemoteCmd
  | cat : String → RemoteCmd
  | mv : String → String → RemoteCmd
deriving DecidableEq

/-- The commands issued by available_non_empty_files: one ls per
prospective spec, then one wc per temp entry. -/
def available_cmds (w : Remote) (prospective : List FileSpec) : List RemoteCmd :=
  prospective.map (fun s => RemoteCmd.ls s.remote_path)
    ++ (lsTemp w prospective).map (fun s => RemoteCmd.wc s.remote_path)

/-- The commands issued by copy_files_to_host: one cat per wanted file. -/
def copy_files_to_host_cmds (wanted : List FileSpec) : List RemoteCmd :=
  wanted.map (fun s => RemoteCmd.cat s.remote_path)

/-- The commands issued by move_remote_files_aside: one
mv remote_path remote_path_old per spec passed in. -/
def move_remote_files_aside_cmds (specs : List FileSpec) : List RemoteCmd :=
  specs.map (fun s => RemoteCmd.mv s.remote_path s.remote_path_old)

/-- The remote command trace of one run of copy_check_files: the
availability check, the copy phase when at least one file is wanted, and
the unconditional move-aside over all prospective files. -/
def copy_check_files_trace (w : Remote) (prospective : List FileSpec) :
    List RemoteCmd :=
  let files_wanted := (available_non_empty_files w prospective).1
  available_cmds w prospective
    ++ (if files_wanted.length > 0 then copy_files_to_host_cmds files_wanted
        else [])
    ++ move_remote_files_aside_cmds prospective

/-- Is a command the move-aside command? -/
def isMv : RemoteCmd → Bool
  | RemoteCmd.mv _ _ => true
  | _ => false

/-- C8: in every run, the mv commands of the trace are exactly one
mv remote_path remote_path_old per prospective file, in order —
including the files the non-empty filter excluded — and they all come
after every other command of the run, hence after the copy phase,
whatever was actually copied. -/
theorem move_aside_unconditional (w : Remote) (prospective : List FileSpec) :
    (copy_check_files_trace w prospective).filter isMv
      = prospective.map (fun s => RemoteCmd.mv s.remote_path s.remote_path_old)
    ∧ ∃ pre, copy_check_files_trace w prospective
        = pre ++ prospective.map (fun s => RemoteCmd.mv s.remote_path s.remote_path_old)
        ∧ ∀ c ∈ pre, isMv c = false := by
  have hpre : ∀ c ∈ available_cmds w prospective
      ++ (if ((available_non_empty_files w prospective).1).length > 0
          then copy_files_to_host_cmds (available_non_empty_files w prospective).1
          else []), isMv c = false := by
    intro c hc
    rcases List.mem_append.mp hc with hc1 | hc2
    · rcases List.mem_append.mp hc1 with hls | hwc
      · obtain ⟨s, _, rfl⟩ := List.mem_map.mp hls
        rfl
      · obtain ⟨s, _, rfl⟩ := List.mem_map.mp hwc
        rfl
    · by_cases hw : ((available_non_empty_files w prospective).1).length > 0
      · rw [if_pos hw] at hc2
        obtain ⟨s, _, rfl⟩ := List.mem_map.mp hc2
        rfl
      · rw [if_neg hw] at hc2
        simp at hc2
  have htrace : copy_check_files_trace w prospective
      = (available_cmds w prospective
          ++ (if ((available_non_empty_files w prospective).1).length > 0
              then copy_files_to_host_cmds (available_non_empty_files w prospective).1
              else []))
        ++ prospective.map (fun s => RemoteCmd.mv s.remote_path s.remote_path_old) := by
    rw [copy_check_files_trace, move_remote_files_aside_cmds]
  constructor
  · rw [htrace, List.filter_append]
    have h1 : (available_cmds w prospective
        ++ (if ((available_non_empty_files w prospective).1).length > 0
            then copy_files_to_host_cmds (available_non_empty_files w prospective).1
            else [])).filter isMv = [] := by
      rw [List.filter_eq_nil]
      intro c hc
      rw [hpre c hc]
      simp
    have h2 : (prospective.map
        (fun s => RemoteCmd.mv s.remote_path s.remote_path_old)).filter isMv
        = prospective.map (fun s => RemoteCmd.mv s.remote_path s.remote_path_old) := by
      apply List.filter_eq_self.mpr
      intro c hc
      obtain ⟨s, _, rfl⟩ := List.mem_map.mp hc
      rfl
    rw [h1, h2, List.nil_append]
  · exact ⟨_, htrace, hpre⟩

/-! ## Pipeline A: the main flow of copy_fiscal_year_data.py

After loading the configuration the script evaluates the expression
adding the string literal to the remote_specs dict as the argument of
logging.debug.  Python string concatenation is defined only between two
strings; adding a dict raises TypeError before the logging call, before
any database or remote work.  The stages the run would perform are
recorded as events. -/

/-- The Python values reaching the string concatenation. -/
inductive PyVal where
  | str : String → PyVal
  | dict : List (String × String) → PyVal
deriving DecidableEq

/-- Python binary + on these values: defined for two strings, a
TypeError otherwise. -/
def pyAdd : PyVal → PyVal → Except String PyVal
  | PyVal.str a, PyVal.str b => Except.ok (PyVal.str (a ++ b))
  | PyVal.str _, PyVal.dict _ =>
      Except.error "TypeError: can only concatenate str (not dict) to str"
  | PyVal.dict _, _ => Except.error "TypeError: unsupported operand"

/-- The externally visible stages of one run of Pipeline A. -/
inductive PipelineAEvent where
  | configLoaded
  | dbConnected
  | queryExecuted
  | fileWritten
  | remoteCopied
deriving DecidableEq

/-- The main function copy_fiscal_year_data on the outcome of
get_configuration: none models a malformed configuration (the script
prints its instructions and exits), some gives the local directory and
the remote_specs dict.  After a successful load the script evaluates
the argument of its second logging.debug call, the string literal plus
the remote_specs dict; only if that succeeded would it connect, query,
write files and copy them. -/
def copy_fiscal_year_data
    (cfg : Option (String × List (String × String))) :
    List PipelineAEvent × Except String Unit :=
  match cfg with
  | none => ([], Except.error "SystemExit")
  | some (_, remote_specs) =>
    match pyAdd (PyVal.str "remote specs are ") (PyVal.dict remote_specs) with
    | Except.error e => ([PipelineAEvent.configLoaded], Except.error e)
    | Except.ok _ =>
      ([PipelineAEvent.configLoaded, PipelineAEvent.dbConnected,
        PipelineAEvent.queryExecuted, PipelineAEvent.fileWritten,
        PipelineAEvent.remoteCopied], Except.ok ())

/-- C9: with any well-formed configuration, the run raises TypeError
right after the configuration stage: no database connection, query,
file write or remote copy happens, and the run never succeeds. -/
theorem copy_fiscal_year_data_always_raises
    (cfg : Option (String × List (String × String)))
    (ldir : String) (remote_specs : List (String × String))
    (hcfg : cfg = some (ldir, remote_specs)) :
    copy_fiscal_year_data cfg
      = ([PipelineAEvent.configLoaded],
         Except.error "TypeError: can only concatenate str (not dict) to str")
    ∧ PipelineAEvent.dbConnected ∉ (copy_fiscal_year_data cfg).1
    ∧ PipelineAEvent.queryExecuted ∉ (copy_fiscal_year_data cfg).1
    ∧ PipelineAEvent.fileWritten ∉ (copy_fiscal_year_data cfg).1
    ∧ PipelineAEvent.remoteCopied ∉ (copy_fiscal_year_data cfg).1
    ∧ ∀ u, (copy_fiscal_year_data cfg).2 ≠ Except.ok u := by
  subst hcfg
  refine ⟨rfl, by simp [copy_fiscal_year_data, pyAdd], by simp [copy_fiscal_year_data, pyAdd],
    by simp [copy_fiscal_year_data, pyAdd], by simp [copy_fiscal_year_data, pyAdd], ?_⟩
  intro u
  simp [copy_fiscal_year_data, pyAdd]

/-- C9 witness at a concrete configuration. -/
theorem copy_fiscal_year_data_always_raises_witness :
    copy_fiscal_year_data (some ("/home/runner/poliops2",
        [("host", "trfr.example.org"), ("user", "runner"), ("keyname", "k")]))
      = ([PipelineAEvent.configLoaded],
         Except.error "TypeError: can only concatenate str (not dict) to str")
    ∧ PipelineAEvent.dbConnected ∉ (copy_fiscal_year_data (some ("/home/runner/poliops2",
        [("host", "trfr.example.org"), ("user", "runner"), ("keyname", "k")]))).1
    ∧ PipelineAEvent.queryExecuted ∉ (copy_fiscal_year_data (some ("/home/runner/poliops2",
        [("host", "trfr.example.org"), ("user", "runner"), ("keyname", "k")]))).1
    ∧ PipelineAEvent.fileWritten ∉ (copy_fiscal_year_data (some ("/home/runner/poliops2",
        [("host", "trfr.example.org"), ("user", "runner"), ("keyname", "k")]))).1
    ∧ PipelineAEvent.remoteCopied ∉ (copy_fiscal_year_data (some ("/home/runner/poliops2",
        [("host", "trfr.example.org"), ("user", "runner"), ("keyname", "k")]))).1
    ∧ ∀ u, (copy_fiscal_year_data (some ("/home/runner/poliops2",
        [("host", "trfr.example.org"), ("user", "runner"), ("keyname", "k")]))).2
        ≠ Except.ok u :=
  copy_fiscal_year_data_always_raises _ "/home/runner/poliops2"
    [("host", "trfr.example.org"), ("user", "runner"), ("keyname", "k")] rfl

/-! ## Pipeline A: the paginated report writer (copy_fiscal_year_data.py)

The fetchmany/while loop of create_reports: fetch up to ROWS_PER_FILE
rows; while the fetch is nonempty, write the batch through the writer
made by make_writer (header row first, then the batch, to the file named
by the current sequence suffix), fetch again, stop on an empty fetch,
else advance the suffix (empty string to 2, then str(int(s) + 1)).
The cursor is modelled as the list of rows it will yield; fetchmany cap
is take cap / drop cap. -/

def ROWS_PER_FILE : Nat := 49999

/-- The suffix update at the bottom of the while loop. -/
def nextSuffix (s : List Char) : List Char :=
  if s = [] then ['2'] else natDigits (parseIntChars s + 1)

/-- One file written by the writer returned by make_writer: its sequence
suffix (the varying part of the pathname), the header row and the data
rows written after it. -/
structure OutFile (α : Type) where
  seqSuffix : List Char
  header : List String
  dataRows : List α

/-- The fetch/write loop of create_reports for one query, from a given
sequence suffix and the rows still in the cursor. -/
def reportPages {α : Type} (cap : Nat) (header : List String)
    (s : List Char) (rows : List α) : List (OutFile α) :=
  if h : rows.isEmpty || cap == 0 then []
  else
    { seqSuffix := s, header := header, dataRows := rows.take cap } ::
      (if h2 : (rows.drop cap).isEmpty then []
       else reportPages cap header (nextSuffix s) (rows.drop cap))
termination_by rows.length
decreasing_by
  simp only [Bool.or_eq_true, List.isEmpty_iff, beq_iff_eq, not_or] at h
  simp only [List.isEmpty_iff, ← List.length_eq_zero] at h2
  have hlen : 0 < rows.length := by
    cases hrows : rows with
    | nil => exact absurd hrows h.1
    | cons a t => simp
  simp only [List.length_drop]
  omega

theorem reportPages_nil {α : Type} (cap : Nat) (header : List String)
    (s : List Char) : reportPages cap header s ([] : List α) = [] := by
  rw [reportPages]
  simp

/-- Every row of the cursor appears in the written files, in order, with
nothing dropped or duplicated. -/
theorem reportPages_join {α : Type} (cap : Nat) (header : List String)
    (hcap : cap ≠ 0) :
    ∀ (n : Nat) (rows : List α), rows.length ≤ n → ∀ s,
      ((reportPages cap header s rows).map (fun g => g.dataRows)).flatten = rows := by
  intro n
  induction n with
  | zero =>
    intro rows hlen s
    have hnil : rows = [] := List.length_eq_zero.mp (Nat.le_zero.mp hlen)
    subst hnil
    rw [reportPages_nil]
    rfl
  | succ m ih =>
    intro rows hlen s
    by_cases hr : rows = []
    · subst hr
      rw [reportPages_nil]
      rfl
    · rw [reportPages]
      have hcond : ¬((rows.isEmpty || cap == 0) = true) := by
        simp [hr, hcap]
      rw [dif_neg hcond]
      by_cases hdrop : (rows.drop cap).isEmpty = true
      · rw [dif_pos hdrop]
        have hd : rows.drop cap = [] := List.isEmpty_iff.mp hdrop
        have hlc : rows.length ≤ cap := by
          have := congrArg List.length hd
          simp only [List.length_drop, List.length_nil] at this
          omega
        simp [List.take_of_length_le hlc]
      · rw [dif_neg hdrop]
        have hlen2 : (rows.drop cap).length ≤ m := by
          simp only [List.length_drop]
          have h1 : 0 < rows.length := by
            cases hx : rows with
            | nil => exact absurd hx hr
            | cons a t => simp
          omega
        simp only [List.map_cons, List.flatten_cons]
        rw [ih (rows.drop cap) hlen2 (nextSuffix s)]
        exact List.take_append_drop cap rows

/-- The number of files written is the ceiling of the row count divided
by the page size. -/
theorem reportPages_length {α : Type} (cap : Nat) (header : List String)
    (hcap : cap ≠ 0) :
    ∀ (n : Nat) (rows : List α), rows.length ≤ n → rows ≠ [] → ∀ s,
      (reportPages cap header s rows).length = (rows.length - 1) / cap + 1 := by
  intro n
  induction n with
  | zero =>
    intro rows hlen hne s
    exact absurd (List.length_eq_zero.mp (Nat.le_zero.mp hlen)) hne
  | succ m ih =>
    intro rows hlen hne s
    rw [reportPages]
    have hcond : ¬((rows.isEmpty || cap == 0) = true) := by
      simp [hne, hcap]
    rw [dif_neg hcond]
    have hpos : 0 < rows.length := by
      cases hx : rows with
      | nil => exact absurd hx hne
      | cons a t => simp
    by_cases hdrop : (rows.drop cap).isEmpty = true
    · rw [dif_pos hdrop]
      have hd : rows.drop cap = [] := List.isEmpty_iff.mp hdrop
      have hlc : rows.length ≤ cap := by
        have := congrArg List.length hd
        simp only [List.length_drop, List.length_nil] at this
        omega
      have : (rows.length - 1) / cap = 0 := Nat.div_eq_of_lt (by omega)
      simp [this]
    · rw [dif_neg hdrop]
      have hdne : rows.drop cap ≠ [] := by
        intro hx
        rw [hx] at hdrop
        exact hdrop rfl
      have hgt : cap < rows.length := by
        by_contra hle
        push_neg at hle
        exact hdne (List.drop_eq_nil_of_le hle)
      have hlen2 : (rows.drop cap).length ≤ m := by
        simp only [List.length_drop]
        omega
      rw [List.length_cons, ih (rows.drop cap) hlen2 hdne (nextSuffix s)]
      simp only [List.length_drop]
      have hstep : (rows.length - 1) / cap = (rows.length - 1 - cap) / cap + 1 :=
        Nat.div_eq_sub_div (by omega) (by omega)
      have heq : rows.length - 1 - cap = rows.length - cap - 1 := by omega
      rw [hstep, heq]

/-- The sequence suffix of the i-th file written from initial suffix s
is the i-th iterate of the suffix update. -/
theorem reportPages_suffix {α : Type} (cap : Nat) (header : List String) :
    ∀ (n : Nat) (rows : List α), rows.length ≤ n → ∀ s i f,
      ((reportPages cap header s rows).map (fun g => g.seqSuffix)).get? i = some f →
      f = Nat.iterate nextSuffix i s := by
  intro n
  induction n with
  | zero =>
    intro rows hlen s i f hget
    have hnil : rows = [] := List.length_eq_zero.mp (Nat.le_zero.mp hlen)
    subst hnil
    rw [reportPages_nil] at hget
    simp at hget
  | succ m ih =>
    intro rows hlen s i f hget
    by_cases hr : rows = []
    · subst hr
      rw [reportPages_nil] at hget
      simp at hget
    · by_cases hcap : cap = 0
      · rw [reportPages] at hget
        rw [dif_pos (by simp [hcap])] at hget
        simp at hget
      · rw [reportPages] at hget
        have hcond : ¬((rows.isEmpty || cap == 0) = true) := by
          simp [hr, hcap]
        rw [dif_neg hcond] at hget
        cases i with
        | zero =>
          simp only [List.map_cons, List.get?_cons_zero, Option.some.injEq] at hget
          rw [← hget]
          rfl
        | succ j =>
          simp only [List.map_cons, List.get?_cons_succ] at hget
          by_cases hdrop : (rows.drop cap).isEmpty = true
          · rw [dif_pos hdrop] at hget
            simp at hget
          · rw [dif_neg hdrop] at hget
            have hpos : 0 < rows.length := by
              cases hx : rows with
              | nil => exact absurd hx hr
              | cons a t => simp
            have hlen2 : (rows.drop cap).length ≤ m := by
              simp only [List.length_drop]
              omega
            have := ih (rows.drop cap) hlen2 (nextSuffix s) j f hget
            rw [this, Function.iterate_succ_apply]

/-- Starting from the empty suffix, the i-th suffix written is the
decimal rendering of i + 1 (so the second file carries 2, the third 3,
and so on). -/
theorem iterate_nextSuffix (i : Nat) (hi : 1 ≤ i) :
    Nat.iterate nextSuffix i [] = natDigits (i + 1) := by
  induction i with
  | zero => omega
  | succ j ihj =>
    by_cases hj : j = 0
    · subst hj
      rw [Function.iterate_one]
      rw [show nextSuffix [] = ['2'] from rfl]
      decide
    · have hj1 : 1 ≤ j := by omega
      rw [Function.iterate_succ_apply', ihj hj1]
      rw [nextSuffix, if_neg (natDigits_ne_nil (j + 1)), parseIntChars_natDigits]

/-- C1: for a result set of k * ROWS_PER_FILE + r rows (r < page size),
create_reports writes k + (1 if r > 0 else 0) files; the sequence
suffixes are the empty string for the first file and then the strictly
increasing decimal numerals 2, 3, 4, ...; and the concatenation of the
data rows of all files, headers excluded, in suffix order, is the
cursor's row sequence with nothing dropped or duplicated. -/
theorem create_reports_pagination {α : Type} (header : List String) (rows : List α)
    (k r : Nat) (hsize : rows.length = k * ROWS_PER_FILE + r)
    (hr : r < ROWS_PER_FILE) :
    (reportPages ROWS_PER_FILE header [] rows).length
        = k + (if 0 < r then 1 else 0)
    ∧ (∀ i f, ((reportPages ROWS_PER_FILE header [] rows).map
        (fun g => g.seqSuffix)).get? i = some f →
        f = if i = 0 then [] else natDigits (i + 1))
    ∧ ((reportPages ROWS_PER_FILE header [] rows).map
        (fun g => g.dataRows)).flatten = rows := by
  have hcap : ROWS_PER_FILE ≠ 0 := by decide
  refine ⟨?_, ?_, ?_⟩
  · by_cases hnil : rows = []
    · subst hnil
      rw [reportPages_nil]
      simp only [List.length_nil] at hsize
      rw [show ROWS_PER_FILE = 49999 from rfl] at hsize
      have hk : k = 0 := by omega
      have hr0 : r = 0 := by omega
      simp [hk, hr0]
    · rw [reportPages_length ROWS_PER_FILE header hcap rows.length rows
        (Nat.le_refl _) hnil []]
      rw [hsize]
      rw [show ROWS_PER_FILE = 49999 from rfl] at hsize hr ⊢
      have hpos : 1 ≤ k * 49999 + r := by
        by_contra hz
        push_neg at hz
        have : rows.length = 0 := by omega
        exact hnil (List.length_eq_zero.mp this)
      by_cases hr0 : 0 < r
      · rw [if_pos hr0]
        omega
      · rw [if_neg hr0]
        have : r = 0 := by omega
        subst this
        have hk1 : 1 ≤ k := by omega
        omega
  · intro i f hget
    have hit := reportPages_suffix ROWS_PER_FILE header rows.length rows
      (Nat.le_refl _) [] i f hget
    cases i with
    | zero =>
      rw [if_pos rfl]
      rw [hit]
      rfl
    | succ j =>
      rw [if_neg (by omega)]
      rw [hit, iterate_nextSuffix (j + 1) (by omega)]
  · exact reportPages_join ROWS_PER_FILE header hcap rows.length rows
      (Nat.le_refl _) []

/-- C1 witness: three rows fit in one file, with the empty suffix. -/
theorem create_reports_pagination_witness :
    (reportPages ROWS_PER_FILE ["Date", "Amount"] [] [10, 20, 30]).length
        = 0 + (if 0 < 3 then 1 else 0)
    ∧ (∀ i f, ((reportPages ROWS_PER_FILE ["Date", "Amount"] [] [10, 20, 30]).map
        (fun g => g.seqSuffix)).get? i = some f →
        f = if i = 0 then [] else natDigits (i + 1))
    ∧ ((reportPages ROWS_PER_FILE ["Date", "Amount"] [] [10, 20, 30]).map
        (fun g => g.dataRows)).flatten = [10, 20, 30] :=
  create_reports_pagination ["Date", "Amount"] [10, 20, 30] 0 3 rfl (by decide)

/-! ## Pipeline A: the timestamp output converter (copy_fiscal_year_data.py)

datetime_to_string unpacks the raw SQL timestamp into days since
1900-01-01 and ticks of 1/300 second within the day, builds the
corresponding proleptic-Gregorian date and time of day, renders it as
strftime of the fixed format (month abbreviation, zero-padded day, year,
zero-padded 12-hour clock, minutes, AM or PM), and finally replaces a
leading zero of the day field (string index 4) by a space.

The date arithmetic of Python's datetime plus timedelta is modelled with
the standard civil-from-days algorithm on integers with floor division,
which agrees with the proleptic Gregorian calendar for every day count.
The rounding of the tick fraction to milliseconds in the source cannot
move the displayed minute: ticks are multiples of 1/300 s, more than
3 ms away from any minute boundary they do not sit on exactly, while the
rounding moves the value by at most 0.5 ms, so seconds are modelled as
ticks divided by 300.  All functions here are deterministic, so the
rendered string is byte-for-byte determined by the raw value. -/

def cfdZ (z0 : Int) : Int := z0 + 719468

def cfdEra (z0 : Int) : Int := cfdZ z0 / 146097

def cfdDoe (z0 : Int) : Int := cfdZ z0 - cfdEra z0 * 146097

def cfdYoe (z0 : Int) : Int :=
  (cfdDoe z0 - cfdDoe z0 / 1460 + cfdDoe z0 / 36524 - cfdDoe z0 / 146096) / 365

def cfdDoy (z0 : Int) : Int :=
  cfdDoe z0 - (365 * cfdYoe z0 + cfdYoe z0 / 4 - cfdYoe z0 / 100)

def cfdMp (z0 : Int) : Int := (5 * cfdDoy z0 + 2) / 153

def cfdD (z0 : Int) : Int := cfdDoy z0 - (153 * cfdMp z0 + 2) / 5 + 1

def cfdM (z0 : Int) : Int := cfdMp z0 + (if cfdMp z0 < 10 then 3 else -9)

def cfdY (z0 : Int) : Int :=
  if cfdM z0 ≤ 2 then cfdYoe z0 + cfdEra z0 * 400 + 1
  else cfdYoe z0 + cfdEra z0 * 400

/-- The proleptic Gregorian date (year, month, day) of the day z0 days
after 1970-01-01. -/
def civilFromDays (z0 : Int) : Int × Int × Int := (cfdY z0, cfdM z0, cfdD z0)

/-- Days before the start of year-of-era y within one 400-year era. -/
def natG (y : Nat) : Nat := 365 * y + y / 4 - y / 100

/-- The corrected day count whose quotient by 365 is the year of era. -/
def natN (n : Nat) : Nat := n - n / 1460 + n / 36524 - n / 146096

/-- Year of era from day of era, natural-number version of cfdYoe. -/
def natYoe (n : Nat) : Nat := natN n / 365

theorem natN_step (m : Nat) : natN m ≤ natN (m + 1) := by
  unfold natN
  omega

theorem natN_mono (a b : Nat) (h : a ≤ b) : natN a ≤ natN b := by
  induction b with
  | zero =>
    have ha : a = 0 := by omega
    subst ha
    exact Nat.le_refl _
  | succ m ih =>
    by_cases ha : a = m + 1
    · subst ha
      exact Nat.le_refl _
    · exact Nat.le_trans (ih (by omega)) (natN_step m)

theorem natYoe_mono (a b : Nat) (h : a ≤ b) : natYoe a ≤ natYoe b :=
  Nat.div_le_div_right (natN_mono a b h)

/-- At the first day of each of the 400 years of an era, the year
formula returns that year. -/
theorem yoe_at_start : ∀ y : Nat, y < 400 → natYoe (natG y) = y := by decide

/-- At the last day of each of the 400 years of an era, the year
formula still returns that year. -/
theorem yoe_at_end : ∀ y : Nat, y < 400 →
    natYoe (if y = 399 then 146096 else natG (y + 1) - 1) = y := by decide

theorem natG_succ_gap (y : Nat) (hy : y < 399) : natG (y + 1) ≤ natG y + 366 := by
  unfold natG
  omega

/-- The year-of-era formula always lands the day inside its year: the
day-of-year offset is between 0 and 365.  Proved from the boundary
checks above and monotonicity of the year formula. -/
theorem doy_ok_nat (n : Nat) (hn : n < 146097) :
    natG (natYoe n) ≤ n ∧ n - natG (natYoe n) ≤ 365 := by
  set y := natYoe n with hy
  have hy399 : y ≤ 399 := by
    have h1 : natYoe n ≤ natYoe 146096 := natYoe_mono n 146096 (by omega)
    have h2 : natYoe 146096 = 399 := by decide
    omega
  constructor
  · by_cases hy0 : y = 0
    · rw [hy0]
      unfold natG
      omega
    · by_contra hlt
      push_neg at hlt
      have hseg := yoe_at_end (y - 1) (by omega)
      rw [if_neg (by omega)] at hseg
      rw [show y - 1 + 1 = y from by omega] at hseg
      have hmono := natYoe_mono n (natG y - 1) (by omega)
      rw [hseg] at hmono
      omega
  · by_cases hy399eq : y = 399
    · have hg : natG 399 = 145731 := by decide
      rw [hy399eq, hg]
      omega
    · by_contra hgt
      push_neg at hgt
      have hgap := natG_succ_gap y (by omega)
      have hstart := yoe_at_start (y + 1) (by omega)
      have hmono := natYoe_mono (natG (y + 1)) n (by omega)
      rw [hstart] at hmono
      omega

theorem cfdDoe_bounds (z0 : Int) : 0 ≤ cfdDoe z0 ∧ cfdDoe z0 < 146097 := by
  unfold cfdDoe cfdEra cfdZ
  omega

theorem cfdDoy_bounds (z0 : Int) : 0 ≤ cfdDoy z0 ∧ cfdDoy z0 ≤ 365 := by
  have hdoe := cfdDoe_bounds z0
  have hnlt : (cfdDoe z0).toNat < 146097 := by omega
  have h := doy_ok_nat (cfdDoe z0).toNat hnlt
  rw [natG, natYoe, natN] at h
  set n := (cfdDoe z0).toNat with hn
  obtain ⟨ha, hb⟩ := h
  have ha2 := ha
  have hle1 : n / 1460 ≤ n := Nat.div_le_self n 1460
  have hle2 : n / 146096 ≤ n - n / 1460 + n / 36524 := by omega
  have hle3 : ((n - n / 1460 + n / 36524 - n / 146096) / 365) / 100
      ≤ 365 * ((n - n / 1460 + n / 36524 - n / 146096) / 365)
        + ((n - n / 1460 + n / 36524 - n / 146096) / 365) / 4 := by omega
  zify [hle1, hle2, hle3] at ha
  zify [hle1, hle2, hle3, ha2] at hb
  have hcast : cfdDoe z0 = (n : Int) := by omega
  rw [cfdDoy, cfdYoe, hcast]
  omega

theorem cfdD_bounds (z0 : Int) : 1 ≤ cfdD z0 ∧ cfdD z0 ≤ 31 := by
  have h := cfdDoy_bounds z0
  unfold cfdD cfdMp
  omega

theorem cfdM_bounds (z0 : Int) : 1 ≤ cfdM z0 ∧ cfdM z0 ≤ 12 := by
  have h := cfdDoy_bounds z0
  unfold cfdM cfdMp
  split <;> omega
def digitChar (n : Nat) : Char := Char.ofNat (48 + n)

/-- Python %d / %I / %M zero padding to two characters. -/
def pad2 (n : Nat) : List Char := if n < 10 then ['0', digitChar n] else natDigits n

/-- The C-locale month abbreviations of strftime %b. -/
def monthAbbrev (m : Int) : List Char :=
  if m = 1 then ['J','a','n'] else if m = 2 then ['F','e','b']
  else if m = 3 then ['M','a','r'] else if m = 4 then ['A','p','r']
  else if m = 5 then ['M','a','y'] else if m = 6 then ['J','u','n']
  else if m = 7 then ['J','u','l'] else if m = 8 then ['A','u','g']
  else if m = 9 then ['S','e','p'] else if m = 10 then ['O','c','t']
  else if m = 11 then ['N','o','v'] else ['D','e','c']

theorem monthAbbrev_length (m : Int) : (monthAbbrev m).length = 3 := by
  unfold monthAbbrev
  split_ifs <;> rfl

/-- Hour of day from the tick count (1/300 s units within the day). -/
def dtsHour (ticks : Int) : Int := ticks / 300 / 3600

/-- Minute of hour from the tick count. -/
def dtsMinute (ticks : Int) : Int := ticks / 300 / 60 % 60

/-- The 12-hour clock value of strftime %I. -/
def dtsHour12 (ticks : Int) : Int :=
  if dtsHour ticks % 12 = 0 then 12 else dtsHour ticks % 12

/-- strftime %p. -/
def dtsAmPm (ticks : Int) : List Char :=
  if dtsHour ticks < 12 then ['A', 'M'] else ['P', 'M']

/-- The strftime output the source builds before its leading-zero patch:
the format string is month abbreviation, space, two-digit day, space,
year, space, two-digit 12-hour clock, colon, two-digit minute, AM/PM. -/
def strftimeOut (days ticks : Int) : List Char :=
  monthAbbrev (civilFromDays (days - 25567)).2.1
    ++ (' ' :: (pad2 (civilFromDays (days - 25567)).2.2.toNat
    ++ (' ' :: (natDigits (civilFromDays (days - 25567)).1.toNat
    ++ (' ' :: (pad2 (dtsHour12 ticks).toNat
    ++ (':' :: (pad2 (dtsMinute ticks).toNat
    ++ dtsAmPm ticks))))))))

/-- The output converter datetime_to_string of copy_fiscal_year_data.py
on the decoded raw value: days since 1900-01-01 and ticks within the
day.  After strftime, when the character at index 4 (the first digit of
the day) is a zero, the slice before it, a space, and the slice after it
are concatenated instead. -/
def datetime_to_string (days ticks : Int) : List Char :=
  if (strftimeOut days ticks).get? 4 = some '0'
  then (strftimeOut days ticks).take 4 ++ ' ' :: (strftimeOut days ticks).drop 5
  else strftimeOut days ticks

theorem natDigits_two_digits (n : Nat) (h10 : 10 ≤ n) (h99 : n ≤ 99) :
    natDigits n = [digitChar (n / 10), digitChar (n % 10)] := by
  rw [natDigits_eq, if_neg (by omega)]
  rw [natDigits_eq, if_pos (by omega)]
  rfl

theorem digitChar_ne_zero (v : Nat) (h1 : 1 ≤ v) (h9 : v < 10) :
    digitChar v ≠ '0' := by
  have : ∀ u : Nat, u < 10 → 1 ≤ u → digitChar u ≠ '0' := by decide
  exact this v h9 h1

/-- The effect of the leading-zero patch on a string whose first three
characters are the month, then a space, then the two-character day
field: a day below ten has its zero replaced by a space, a two-digit day
passes through unchanged. -/
theorem patch_day (A rest : List Char) (dn : Nat) (hA : A.length = 3)
    (hdn1 : 1 ≤ dn) (hdn99 : dn ≤ 99) :
    (if (A ++ (' ' :: (pad2 dn ++ rest))).get? 4 = some '0'
     then (A ++ (' ' :: (pad2 dn ++ rest))).take 4
            ++ ' ' :: (A ++ (' ' :: (pad2 dn ++ rest))).drop 5
     else A ++ (' ' :: (pad2 dn ++ rest)))
    = A ++ (' ' :: ((if dn < 10 then [' ', digitChar dn] else natDigits dn)
        ++ rest)) := by
  obtain ⟨a, b, c, hAeq⟩ := List.length_eq_three.mp hA
  subst hAeq
  by_cases h10 : dn < 10
  · rw [pad2, if_pos h10, if_pos h10]
    simp [List.cons_append, List.nil_append, List.get?, List.take, List.drop]
  · rw [pad2, if_neg h10, if_neg h10]
    rw [natDigits_two_digits dn (by omega) hdn99]
    have hne : digitChar (dn / 10) ≠ '0' := digitChar_ne_zero (dn / 10)
      (by omega) (by omega)
    rw [if_neg (by simp [List.cons_append, List.nil_append, List.get?, hne])]

/-- C6: the output converter renders every raw timestamp value in the
fixed format month abbreviation, space, day, space, year, space,
12-hour clock, colon, minute, AM/PM, where the day field of a
single-digit day is a space followed by the digit (the leading zero of
strftime replaced by a space) and the day field of a two-digit day
(10 to 31) is the two digits unchanged; the date components always
satisfy 1 ≤ day ≤ 31 and 1 ≤ month ≤ 12.  Being a pure function of the
raw value, the result is byte-for-byte deterministic. -/
theorem datetime_to_string_format (days ticks : Int) :
    datetime_to_string days ticks
      = monthAbbrev (civilFromDays (days - 25567)).2.1
        ++ (' ' :: ((if (civilFromDays (days - 25567)).2.2.toNat < 10
                   then [' ', digitChar (civilFromDays (days - 25567)).2.2.toNat]
                   else natDigits (civilFromDays (days - 25567)).2.2.toNat)
        ++ (' ' :: (natDigits (civilFromDays (days - 25567)).1.toNat
        ++ (' ' :: (pad2 (dtsHour12 ticks).toNat
        ++ (':' :: (pad2 (dtsMinute ticks).toNat
        ++ dtsAmPm ticks))))))))
    ∧ (1 ≤ (civilFromDays (days - 25567)).2.2
        ∧ (civilFromDays (days - 25567)).2.2 ≤ 31)
    ∧ (1 ≤ (civilFromDays (days - 25567)).2.1
        ∧ (civilFromDays (days - 25567)).2.1 ≤ 12) := by
  have hd := cfdD_bounds (days - 25567)
  have hm := cfdM_bounds (days - 25567)
  refine ⟨?_, hd, hm⟩
  have h := patch_day (monthAbbrev (civilFromDays (days - 25567)).2.1)
    (' ' :: (natDigits (civilFromDays (days - 25567)).1.toNat
      ++ (' ' :: (pad2 (dtsHour12 ticks).toNat
      ++ (':' :: (pad2 (dtsMinute ticks).toNat
      ++ dtsAmPm ticks))))))
    (civilFromDays (days - 25567)).2.2.toNat
    (monthAbbrev_length _)
    (by have : (civilFromDays (days - 25567)).2.2 = cfdD (days - 25567) := rfl
        omega)
    (by have : (civilFromDays (days - 25567)).2.2 = cfdD (days - 25567) := rfl
        omega)
  exact h

